import Mathlib

/-!
Shallow embedding of the `counterpoint` repository: the pitch, interval and
scale arithmetic library (`theory/src/lib.rs`) and the first-species
counterpoint backtracking search (`src/main.rs`).

Rust `i8`/`usize` values are modelled as `Int`/`Nat`; every value the program
can reach stays far from the `i8` boundaries, so wrap-around never occurs and
plain integers are a faithful model.  The thread-local random generator is
modelled as an explicit stream of natural numbers: `rng.gen_range(0, i)`
consumes the head of the stream reduced modulo `i`, so every value in
`[0, i)` is realisable by a suitable stream.  Rust panics (out-of-range
indexing, reachable only outside the states the program itself constructs)
are modelled by an explicit sentinel or, in positions that are provably
never read, a default value.
-/

namespace CP

inductive PitchBase where
  | C
  | D
  | E
  | F
  | G
  | A
  | B
  deriving DecidableEq

inductive PitchModifier where
  | DoubleFlat
  | Flat
  | Natural
  | Sharp
  | DoubleSharp
  deriving DecidableEq

structure Note where
  base : PitchBase
  modifier : PitchModifier
  deriving DecidableEq

def Note.semitones_from_c (n : Note) : Int :=
  (match n.base with
   | .C => 0
   | .D => 2
   | .E => 4
   | .F => 5
   | .G => 7
   | .A => 9
   | .B => 11) +
  (match n.modifier with
   | .DoubleFlat => -2
   | .Flat => -1
   | .Natural => 0
   | .Sharp => 1
   | .DoubleSharp => 2)

/-- Gets a note from the semitones above C; spelled using sharps.  For inputs
below `-12` the Rust original reaches `unreachable!()`; the program only ever
calls this with values in `[-12, 12]`, where both `i8 %` and `Int.emod`
agree, so taking `Int.emod` is faithful on every reachable input. -/
def Note.from_semitones_from_c (semitones : Int) : Note :=
  let semitones := if semitones < 0 then semitones + 12 else semitones
  let semitones := semitones % 12
  if semitones = 0 then ⟨.C, .Natural⟩
  else if semitones = 1 then ⟨.C, .Sharp⟩
  else if semitones = 2 then ⟨.D, .Natural⟩
  else if semitones = 3 then ⟨.D, .Sharp⟩
  else if semitones = 4 then ⟨.E, .Natural⟩
  else if semitones = 5 then ⟨.F, .Natural⟩
  else if semitones = 6 then ⟨.F, .Sharp⟩
  else if semitones = 7 then ⟨.G, .Natural⟩
  else if semitones = 8 then ⟨.G, .Sharp⟩
  else if semitones = 9 then ⟨.A, .Natural⟩
  else if semitones = 10 then ⟨.A, .Sharp⟩
  else ⟨.B, .Natural⟩

/-- `PartialEq for Note`: equality of semitone classes. -/
def noteBeq (a b : Note) : Bool :=
  a.semitones_from_c == b.semitones_from_c

/-- Note plus octave; for example A flat 3 is `⟨⟨.A, .Flat⟩, 3⟩`. -/
structure Pitch where
  note : Note
  octave : Int
  deriving DecidableEq

def Pitch.semitones_from_middle_c (p : Pitch) : Int :=
  p.note.semitones_from_c + (p.octave - 4) * 12

/-- First loop of `Pitch::from_semitones_from_middle_c`:
`while semitones < 0 { semitones += 12; octave_difference -= 1; }`.
The extra `Nat` is an upper bound on the number of iterations; called with
bound `s.natAbs` the loop always reaches its exit condition strictly before
the bound runs out, so the result is exactly the Rust loop's result. -/
def raiseLoop : Nat → Int → Int → Int × Int
  | 0, s, oct => (s, oct)
  | n + 1, s, oct => if s < 0 then raiseLoop n (s + 12) (oct - 1) else (s, oct)

/-- Second loop of `Pitch::from_semitones_from_middle_c`:
`while semitones > 12 { semitones -= 12; octave_difference += 1; }`,
bounded in the same way as `raiseLoop`. -/
def lowerLoop : Nat → Int → Int → Int × Int
  | 0, s, oct => (s, oct)
  | n + 1, s, oct => if 12 < s then lowerLoop n (s - 12) (oct + 1) else (s, oct)

def Pitch.from_semitones_from_middle_c (semitones : Int) : Pitch :=
  let p1 := raiseLoop semitones.natAbs semitones 0
  let p2 := lowerLoop p1.1.natAbs p1.1 p1.2
  ⟨Note.from_semitones_from_c p2.1, 4 + p2.2⟩

/-- `PartialEq for Pitch`: equality of absolute semitone positions. -/
def pitchBeq (p q : Pitch) : Bool :=
  p.semitones_from_middle_c == q.semitones_from_middle_c

inductive Interval where
  | Unison
  | MinorSecond
  | MajorSecond
  | MinorThird
  | MajorThird
  | PerfectFourth
  | Tritone
  | PerfectFifth
  | MinorSixth
  | MajorSixth
  | MinorSeventh
  | MajorSeventh
  deriving DecidableEq

def Interval.semitones : Interval → Nat
  | .Unison => 0
  | .MinorSecond => 1
  | .MajorSecond => 2
  | .MinorThird => 3
  | .MajorThird => 4
  | .PerfectFourth => 5
  | .Tritone => 6
  | .PerfectFifth => 7
  | .MinorSixth => 8
  | .MajorSixth => 9
  | .MinorSeventh => 10
  | .MajorSeventh => 11

def Interval.from_semitones (semitones : Nat) : Interval :=
  match semitones % 12 with
  | 0 => .Unison
  | 1 => .MinorSecond
  | 2 => .MajorSecond
  | 3 => .MinorThird
  | 4 => .MajorThird
  | 5 => .PerfectFourth
  | 6 => .Tritone
  | 7 => .PerfectFifth
  | 8 => .MinorSixth
  | 9 => .MajorSixth
  | 10 => .MinorSeventh
  | _ => .MajorSeventh

/-- `ops::Add<i8> for Pitch`. -/
def pitchAddInt (p : Pitch) (k : Int) : Pitch :=
  Pitch.from_semitones_from_middle_c (p.semitones_from_middle_c + k)

/-- `ops::Sub<i8> for Pitch`. -/
def pitchSubInt (p : Pitch) (k : Int) : Pitch :=
  Pitch.from_semitones_from_middle_c (p.semitones_from_middle_c - k)

/-- `ops::Add<Interval> for Pitch`. -/
def pitchAddInterval (p : Pitch) (i : Interval) : Pitch :=
  Pitch.from_semitones_from_middle_c (p.semitones_from_middle_c + (i.semitones : Int))

/-- `ops::Sub<Interval> for Pitch`. -/
def pitchSubInterval (p : Pitch) (i : Interval) : Pitch :=
  Pitch.from_semitones_from_middle_c (p.semitones_from_middle_c - (i.semitones : Int))

/-- `ops::Add<Interval> for Note`. -/
def noteAddInterval (n : Note) (i : Interval) : Note :=
  Note.from_semitones_from_c (n.semitones_from_c + (i.semitones : Int))

/-- `ops::Sub<Pitch> for Pitch`: order the two pitches by absolute semitone
position and classify the non-negative difference from top to bottom. -/
def pitchSubPitch (p other : Pitch) : Interval :=
  Interval.from_semitones
    ((if p.semitones_from_middle_c < other.semitones_from_middle_c then
        other.semitones_from_middle_c - p.semitones_from_middle_c
      else
        p.semitones_from_middle_c - other.semitones_from_middle_c)).toNat

inductive ScaleType where
  | Ionian
  | Dorian
  | Phrygian
  | Lydian
  | Mixolydian
  | Aeolian
  | Locrian
  | MelodicMinor
  | HarmonicMinor
  | WholeTone
  | Pentatonic
  | PhrygianDominant
  | HungarianMinor
  deriving DecidableEq

/-- The `SCALES_MAP` lazy static, keyed by scale type. -/
def scaleIntervals : ScaleType → List Interval
  | .Ionian => [.MajorSecond, .MajorSecond, .MinorSecond, .MajorSecond, .MajorSecond, .MajorSecond, .MinorSecond]
  | .Dorian => [.MajorSecond, .MinorSecond, .MajorSecond, .MajorSecond, .MajorSecond, .MinorSecond, .MajorSecond]
  | .Phrygian => [.MinorSecond, .MajorSecond, .MajorSecond, .MajorSecond, .MinorSecond, .MajorSecond, .MajorSecond]
  | .Lydian => [.MajorSecond, .MajorSecond, .MajorSecond, .MinorSecond, .MajorSecond, .MajorSecond, .MinorSecond]
  | .Mixolydian => [.MajorSecond, .MajorSecond, .MinorSecond, .MajorSecond, .MajorSecond, .MinorSecond, .MajorSecond]
  | .Aeolian => [.MajorSecond, .MinorSecond, .MajorSecond, .MajorSecond, .MinorSecond, .MajorSecond, .MajorSecond]
  | .Locrian => [.MinorSecond, .MajorSecond, .MajorSecond, .MinorSecond, .MajorSecond, .MajorSecond, .MajorSecond]
  | .MelodicMinor => [.MajorSecond, .MinorSecond, .MajorSecond, .MajorSecond, .MajorSecond, .MajorSecond, .MinorSecond]
  | .HarmonicMinor => [.MajorSecond, .MinorSecond, .MajorSecond, .MajorSecond, .MinorSecond, .MinorThird, .MinorSecond]
  | .PhrygianDominant => [.MinorSecond, .MinorThird, .MinorSecond, .MajorSecond, .MinorSecond, .MajorSecond, .MajorSecond]
  | .HungarianMinor => [.MajorSecond, .MinorSecond, .MinorThird, .MinorSecond, .MinorSecond, .MinorThird, .MinorSecond]
  | .WholeTone => [.MajorSecond, .MinorSecond, .MajorSecond, .MajorSecond, .MajorSecond, .MajorSecond, .MinorSecond]
  | .Pentatonic => [.MajorSecond, .MinorSecond, .MajorSecond, .MajorSecond, .MajorSecond, .MajorSecond, .MinorSecond]

structure Scale where
  root : Note
  type : ScaleType

/-- Body of the `for interval in intervals` loop of `Scale::notes`,
threading the most recently produced note. -/
def scaleNotesGo (last_note : Note) : List Interval → List Note
  | [] => []
  | i :: rest =>
    let new_note := noteAddInterval last_note i
    new_note :: scaleNotesGo new_note rest

def Scale.notes (s : Scale) : List Note :=
  s.root :: scaleNotesGo s.root (scaleIntervals s.type)

/-- `fn sign(a: i8) -> i8`. -/
def sign (a : Int) : Int :=
  if 0 ≤ a then 1 else -1

/-- `rng.gen_range(0, bound)` for `bound ≥ 1`: consume the head of the
stream, reduced modulo the bound (an exhausted stream continues with zeros). -/
def genRange (rand : List Nat) (bound : Nat) : Nat × List Nat :=
  match rand with
  | [] => (0, [])
  | x :: rest => (x % bound, rest)

/-- `val.swap(i, j)`.  Both indices are in range at every call site (the
fallback branch, corresponding to a Rust index panic, is never taken). -/
def listSwap {α : Type} (l : List α) (i j : Nat) : List α :=
  match l.get? i, l.get? j with
  | some a, some b => (l.set i b).set j a
  | _, _ => l

/-- The body of `fn shuffle`, iterating the loop index from `n` down to `1`:
`for i in (1..val.len()).rev() { let idx = rng.gen_range(0, i); val.swap(i, idx) }`. -/
def shuffleGo {α : Type} : List α → List Nat → Nat → List α × List Nat
  | l, rand, 0 => (l, rand)
  | l, rand, n + 1 =>
    let p := genRange rand (n + 1)
    shuffleGo (listSwap l (n + 1) p.1) p.2 n

def shuffle {α : Type} (rand : List Nat) (l : List α) : List α × List Nat :=
  shuffleGo l rand (l.length - 1)

inductive Direction where
  | Above
  | Below
  deriving DecidableEq

/-- Opening candidates (`counterpoint`, lines 29-33): unison, perfect fifth
or twelve semitones away from the first cantus note, on the side fixed by
the direction. -/
def openingCandidates (dir : Direction) (n0 : Pitch) : List Pitch :=
  if dir = .Above then
    [pitchAddInterval n0 .Unison, pitchAddInterval n0 .PerfectFifth, pitchAddInt n0 12]
  else
    [pitchSubInterval n0 .Unison, pitchSubInterval n0 .PerfectFifth, pitchSubInt n0 12]

/-- Closing candidates (`counterpoint_helper`, lines 63-68). -/
def closingCandidates (dir : Direction) (other_note : Pitch) : List Pitch :=
  if dir = .Above then
    [pitchAddInterval other_note .Unison, pitchAddInt other_note 12]
  else
    [pitchSubInterval other_note .Unison, pitchSubInt other_note 12]

/-- Interior candidates (`counterpoint_helper`, lines 69-76), transcribed
operator by operator; note the `- 12 +` in the seventh entry of the `Below`
arm, exactly as in the source. -/
def interiorCandidates (dir : Direction) (other_note : Pitch) : List Pitch :=
  if dir = .Above then
    [pitchAddInterval other_note .PerfectFifth,
     pitchAddInterval other_note .MinorThird,
     pitchAddInterval other_note .MajorThird,
     pitchAddInterval other_note .MinorSixth,
     pitchAddInterval other_note .MajorSixth,
     pitchAddInt other_note 12,
     pitchAddInterval (pitchAddInt other_note 12) .MinorThird,
     pitchAddInterval (pitchAddInt other_note 12) .MajorThird]
  else
    [pitchSubInterval other_note .PerfectFifth,
     pitchSubInterval other_note .MinorThird,
     pitchSubInterval other_note .MajorThird,
     pitchSubInterval other_note .MinorSixth,
     pitchSubInterval other_note .MajorSixth,
     pitchSubInt other_note 12,
     pitchAddInterval (pitchSubInt other_note 12) .MinorThird,
     pitchSubInterval (pitchSubInt other_note 12) .MajorThird]

/-- `scale_notes.contains(&p.0)`: some scale member note is `PartialEq`-equal
to the pitch's note component. -/
def scaleTest (scale : Scale) (p : Pitch) : Bool :=
  (Scale.notes scale).any (fun n => noteBeq n p.note)

/-- The scale-membership removal loop; iterating indices in reverse and
removing in place is exactly a filter. -/
def scaleFilter (scale : Scale) (options : List Pitch) : List Pitch :=
  options.filter (fun option => scaleTest scale option)

/-- Default used to express the Rust indexing `so_far[so_far.len() - 1]` and
friends with `List.getD`.  Every read of this default sits under a guard (or
a reachability invariant) that makes the index in range, so the default is
never the value actually used. -/
def defaultPitch : Pitch :=
  ⟨⟨.C, .Natural⟩, 4⟩

/-- The register-ceiling removal loop (`counterpoint_helper`, lines 102-109):
remove a candidate whose absolute semitone distance from the simultaneous
cantus note exceeds `12 + MajorThird.semitones()`. -/
def registerFilter (other_note : Pitch) (options : List Pitch) : List Pitch :=
  options.filter (fun option =>
    !(decide (12 + Interval.MajorThird.semitones <
        (option.semitones_from_middle_c - other_note.semitones_from_middle_c).natAbs)))

/-- The removal condition of the repeated-note loop (`counterpoint_helper`,
lines 159-166): at least two notes so far, and the candidate's note component
(`PartialEq for Note`, a pitch-class comparison) equals that of the previous
note, which equals that of the note before it. -/
def repeatedReject (so_far : List Pitch) (option : Pitch) : Bool :=
  decide (1 < so_far.length) &&
  noteBeq option.note (so_far.getD (so_far.length - 1) defaultPitch).note &&
  noteBeq (so_far.getD (so_far.length - 1) defaultPitch).note
    (so_far.getD (so_far.length - 2) defaultPitch).note

def repeatedFilter (so_far : List Pitch) (options : List Pitch) : List Pitch :=
  options.filter (fun option => !(repeatedReject so_far option))

def isThirdClass (i : Interval) : Bool :=
  i == Interval.MinorThird || i == Interval.MajorThird

def isSixthClass (i : Interval) : Bool :=
  i == Interval.MinorSixth || i == Interval.MajorSixth

/-- The full rule pipeline of `counterpoint_helper` (lines 78-216), in source
order.  Each Rust loop that iterates the candidate indices in reverse and
calls `options.remove(idx)` is a `List.filter` with the negated removal
condition. -/
def applyFilters (notes so_far : List Pitch) (scale : Scale) (other_note : Pitch)
    (options0 : List Pitch) : List Pitch :=
  let prev_note := so_far.getD (so_far.length - 1) defaultPitch
  let other_prev_note := notes.getD (so_far.length - 1) defaultPitch
  let prev_prev_note := so_far.getD (so_far.length - 2) defaultPitch
  -- We only want notes from the scale.
  let o1 := scaleFilter scale options0
  -- We don't want direct or parallel fifths or octaves.
  let o2 := o1.filter (fun option =>
    !((pitchSubPitch option other_note == Interval.PerfectFifth ||
       pitchSubPitch option other_note == Interval.Unison) &&
      sign (option.semitones_from_middle_c - prev_note.semitones_from_middle_c) ==
        sign (other_note.semitones_from_middle_c - other_prev_note.semitones_from_middle_c)))
  -- Don't exceed a tenth from the other line.
  let o3 := registerFilter other_note o2
  -- Don't move in parallel sixths or thirds more than three notes at a time.
  let o4 := o3.filter (fun option =>
    let interval := pitchSubPitch option other_note
    let pairs := (so_far.zip notes).reverse
    let count :=
      if isThirdClass interval then
        1 + (pairs.takeWhile (fun pr => isThirdClass (pitchSubPitch pr.1 pr.2))).length
      else if isSixthClass interval then
        1 + (pairs.takeWhile (fun pr => isSixthClass (pitchSubPitch pr.1 pr.2))).length
      else 1
    !(decide (3 < count)))
  -- Don't have both voices skip in the same direction.
  let o5 := o4.filter (fun option =>
    let is_skip := decide (Interval.MajorSecond.semitones <
      (option.semitones_from_middle_c - prev_note.semitones_from_middle_c).natAbs)
    let is_other_skip := decide (Interval.MajorSecond.semitones <
      (other_note.semitones_from_middle_c - other_prev_note.semitones_from_middle_c).natAbs)
    !(is_skip && is_other_skip &&
      sign (option.semitones_from_middle_c - prev_note.semitones_from_middle_c) ==
        sign (other_note.semitones_from_middle_c - other_prev_note.semitones_from_middle_c)))
  -- Don't repeat the same note more than twice.
  let o6 := repeatedFilter so_far o5
  -- Don't leap more than an octave.
  let o7 := o6.filter (fun option =>
    !(decide (12 < (option.semitones_from_middle_c - prev_note.semitones_from_middle_c).natAbs)))
  -- Don't leap by a tritone.
  let o8 := o7.filter (fun option =>
    !((option.semitones_from_middle_c - prev_note.semitones_from_middle_c).natAbs ==
      Interval.Tritone.semitones))
  -- Approach the last note via stepwise motion.
  let o9 :=
    if so_far.length = notes.length - 1 then
      o8.filter (fun option =>
        !(decide (Interval.MajorSecond.semitones <
          (option.semitones_from_middle_c - prev_note.semitones_from_middle_c).natAbs)))
    else o8
  -- If you leap, you must go the opposite direction by step.
  let o10 := o9.filter (fun option =>
    !(decide (1 < so_far.length) &&
      decide (Interval.MajorThird.semitones <
        (prev_note.semitones_from_middle_c - prev_prev_note.semitones_from_middle_c).natAbs) &&
      (decide (Interval.MajorSecond.semitones <
          (option.semitones_from_middle_c - prev_note.semitones_from_middle_c).natAbs) ||
       sign (option.semitones_from_middle_c - prev_note.semitones_from_middle_c) ==
         sign (prev_note.semitones_from_middle_c - prev_prev_note.semitones_from_middle_c))))
  o10

/-- `for option in options { ... if res.is_some() { return res; } } None`:
try each candidate in order, threading the random stream, propagating the
first inner success and the out-of-bound sentinel (`none`). -/
def tryOptions (f : Pitch → List Nat → Option (Option (List Pitch) × List Nat)) :
    List Pitch → List Nat → Option (Option (List Pitch) × List Nat)
  | [], rand => some (none, rand)
  | o :: rest, rand =>
    match f o rand with
    | none => none
    | some (some r, rand1) => some (some r, rand1)
    | some (none, rand1) => tryOptions f rest rand1

/-- `fn counterpoint_helper`.  The first `Nat` bounds the recursion depth;
`counterpoint` supplies `notes.length`, which is enough fuel on every call in
every reachable state, so the fuel sentinel (outer `none`) is never produced
(proved below).  `notes[so_far.len()]` out of range, a Rust index panic that
no reachable state triggers, is mapped to `some (none, rand)`. -/
def counterpoint_helper :
    Nat → List Pitch → List Pitch → Scale → Direction → List Nat →
    Option (Option (List Pitch) × List Nat)
  | 0, _, _, _, _, _ => none
  | fuel + 1, notes, so_far, scale, dir, rand =>
    if so_far.length = notes.length then some (some so_far, rand)
    else
      match notes.get? so_far.length with
      | none => some (none, rand)
      | some other_note =>
        let options :=
          if so_far.length = notes.length - 1 then closingCandidates dir other_note
          else interiorCandidates dir other_note
        let options := applyFilters notes so_far scale other_note options
        let p := shuffle rand options
        tryOptions (fun o r => counterpoint_helper fuel notes (so_far ++ [o]) scale dir r) p.1 p.2

/-- `fn counterpoint`.  An empty cantus panics in Rust on `notes[0]`; that
unreachable-by-the-program call is mapped to the sentinel `none`.  Inner
`Option` is Rust's return value: `some r` success, `none` no solution. -/
def counterpoint (notes : List Pitch) (scale : Scale) (dir : Direction) (rand : List Nat) :
    Option (Option (List Pitch)) :=
  match notes with
  | [] => none
  | n0 :: rest =>
    let opening_pitches := openingCandidates dir n0
    let opening_pitches := scaleFilter scale opening_pitches
    let p := shuffle rand opening_pitches
    match tryOptions
        (fun opening r0 =>
          counterpoint_helper (n0 :: rest).length (n0 :: rest) [opening] scale dir r0)
        p.1 p.2 with
    | none => none
    | some (res, _) => some res

/-- Concrete pitches used in the theorems below. -/
def c4p : Pitch := ⟨⟨.C, .Natural⟩, 4⟩

def d4p : Pitch := ⟨⟨.D, .Natural⟩, 4⟩

def f4p : Pitch := ⟨⟨.F, .Natural⟩, 4⟩

def g4p : Pitch := ⟨⟨.G, .Natural⟩, 4⟩

def b4p : Pitch := ⟨⟨.B, .Natural⟩, 4⟩

def c5p : Pitch := ⟨⟨.C, .Natural⟩, 5⟩

def cMajorScale : Scale := ⟨⟨.C, .Natural⟩, .Ionian⟩

/-- The spec's raw interior candidate set, in the spec's words: the
simultaneous cantus note shifted by a fifth, minor third, major third, minor
sixth, major sixth, octave, octave plus minor third and octave plus major
third, every shift applied in the one sign fixed by the direction.  Stated on
semitone positions; used only to compare against `interiorCandidates`. -/
def specInteriorShifts (dir : Direction) (other_note : Pitch) : List Int :=
  match dir with
  | .Above =>
    [other_note.semitones_from_middle_c + 7, other_note.semitones_from_middle_c + 3,
     other_note.semitones_from_middle_c + 4, other_note.semitones_from_middle_c + 8,
     other_note.semitones_from_middle_c + 9, other_note.semitones_from_middle_c + 12,
     other_note.semitones_from_middle_c + 15, other_note.semitones_from_middle_c + 16]
  | .Below =>
    [other_note.semitones_from_middle_c - 7, other_note.semitones_from_middle_c - 3,
     other_note.semitones_from_middle_c - 4, other_note.semitones_from_middle_c - 8,
     other_note.semitones_from_middle_c - 9, other_note.semitones_from_middle_c - 12,
     other_note.semitones_from_middle_c - 15, other_note.semitones_from_middle_c - 16]

/-- The spec's reading of pitch subtraction, in the spec's words: the smaller
of the two modulo-12 semitone classes separating the pitches.  Used only to
compare against `pitchSubPitch`. -/
def specSmallerClass (p q : Pitch) : Nat :=
  let c := (p.semitones_from_middle_c - q.semitones_from_middle_c).natAbs % 12
  min c ((12 - c) % 12)

/-- Claim C1: the raw interior candidate set is claimed to be exactly the
simultaneous cantus note shifted by a fifth, minor/major third, minor/major
sixth, octave, octave plus minor third and octave plus major third, all in
the single sign fixed by the direction.  The code deviates: with simultaneous
note C4 the three octave-based `Above` candidates land at offsets 0, 3 and 4
instead of 12, 15 and 16 (the semitone normalisation collapses positive
multiples of 12), and the seventh `Below` candidate is `- 12 + minor third`,
offset -9 instead of -15. -/
theorem c1_interior_candidates_deviate :
    (interiorCandidates .Above c4p).map Pitch.semitones_from_middle_c =
      [7, 3, 4, 8, 9, 0, 3, 4] ∧
    (interiorCandidates .Below c4p).map Pitch.semitones_from_middle_c =
      [-7, -3, -4, -8, -9, -12, -9, -16] ∧
    (interiorCandidates .Above c4p).map Pitch.semitones_from_middle_c ≠
      specInteriorShifts .Above c4p ∧
    (interiorCandidates .Below c4p).map Pitch.semitones_from_middle_c ≠
      specInteriorShifts .Below c4p := by
  decide

/-- Claim C2, counterexample: with previous counterpoint notes C4, C4 the
candidate C5 is removed by the repeated-note loop although it is not equal as
an exact pitch to either of them, refuting the claimed "exact pitch, not
class" comparison. -/
theorem c2_repeated_filter_uses_pitch_class :
    repeatedFilter [c4p, c4p] [c5p] = [] ∧ pitchBeq c5p c4p = false := by
  decide

/-- The removal condition of the repeated-note loop, as a proposition. -/
theorem repeatedReject_iff (so_far : List Pitch) (option : Pitch) :
    repeatedReject so_far option = true ↔
      (1 < so_far.length ∧
        noteBeq option.note (so_far.getD (so_far.length - 1) defaultPitch).note = true ∧
        noteBeq (so_far.getD (so_far.length - 1) defaultPitch).note
          (so_far.getD (so_far.length - 2) defaultPitch).note = true) := by
  simp only [repeatedReject, Bool.and_eq_true, decide_eq_true_eq, and_assoc]

/-- Claim C2, amended: the repeated-pitch filter rejects a candidate if and
only if at least two prior counterpoint notes exist and the candidate's
pitch-class (note component under enharmonic equality, octave ignored)
equals the previous note's pitch-class, which equals the pitch-class of the
note before it. -/
theorem c2_repeated_filter_amended (so_far options : List Pitch) (option : Pitch) :
    option ∈ repeatedFilter so_far options ↔
      option ∈ options ∧
      ¬(1 < so_far.length ∧
        noteBeq option.note (so_far.getD (so_far.length - 1) defaultPitch).note = true ∧
        noteBeq (so_far.getD (so_far.length - 1) defaultPitch).note
          (so_far.getD (so_far.length - 2) defaultPitch).note = true) := by
  rw [repeatedFilter, List.mem_filter, Bool.not_eq_true', ← Bool.not_eq_true,
    repeatedReject_iff]

/-- Claim C3: `from_semitones_from_middle_c` is claimed to be a right inverse
of `semitones_from_middle_c` on the program's note range.  It is not at 12
semitones (the pitch C5, well inside the range): the loop condition
`while semitones > 12` leaves the value 12 in place, so `C5`'s semitone count
maps back to `C4`, whose semitone count is 0. -/
theorem c3_from_semitones_not_inverse_at_twelve :
    c5p.semitones_from_middle_c = 12 ∧
    Pitch.from_semitones_from_middle_c 12 = c4p ∧
    (Pitch.from_semitones_from_middle_c 12).semitones_from_middle_c = 0 ∧
    pitchBeq (Pitch.from_semitones_from_middle_c c5p.semitones_from_middle_c) c5p = false := by
  decide

/-- Claim C5: the shuffle is claimed to produce every permutation, the
identity included, with equal probability.  The loop draws
`gen_range(0, i)`, excluding `i` itself, so on a two-element list the single
iteration always swaps: whatever the random stream, the output is the
reversal, and the identity permutation is never produced. -/
theorem c5_shuffle_two_element_deterministic (rand : List Nat) :
    (shuffle rand [c4p, d4p]).1 = [d4p, c4p] := by
  cases rand with
  | nil => rfl
  | cons x rest =>
    show listSwap [c4p, d4p] 1 (x % 1) = [d4p, c4p]
    rw [Nat.mod_one]
    decide

/-- Claim C6, counterexample: the pitches C4 and B4 are 11 semitones apart;
the code classifies their difference as a major seventh (class 11), while
the smaller of the two modulo-12 classes separating them is 1 (a minor
second), refuting the "always the smaller class" half of the claim. -/
theorem c6_not_smaller_class :
    pitchSubPitch c4p b4p = Interval.MajorSeventh ∧
    (pitchSubPitch c4p b4p).semitones = 11 ∧
    specSmallerClass c4p b4p = 1 := by
  decide

/-- Claim C6, amended: pitch subtraction is commutative on its result, and
the resulting interval is the modulo-12 class of the absolute semitone
difference (the ascending class from the lower pitch to the higher one, not
necessarily the smaller of the two classes). -/
theorem c6_sub_comm_abs_class (p q : Pitch) :
    pitchSubPitch p q = pitchSubPitch q p ∧
    pitchSubPitch p q =
      Interval.from_semitones
        (p.semitones_from_middle_c - q.semitones_from_middle_c).natAbs := by
  unfold pitchSubPitch
  refine ⟨congrArg Interval.from_semitones ?_, congrArg Interval.from_semitones ?_⟩
  · split <;> split <;> omega
  · split <;> omega

/-- Swapping two in-range elements only rearranges the list. -/
theorem mem_listSwap {α : Type} {x : α} (l : List α) (i j : Nat)
    (h : x ∈ listSwap l i j) : x ∈ l := by
  unfold listSwap at h
  split at h
  · rename_i a b hi hj
    rcases List.mem_or_eq_of_mem_set h with h1 | rfl
    · rcases List.mem_or_eq_of_mem_set h1 with h2 | rfl
      · exact h2
      · exact List.get?_mem hj
    · exact List.get?_mem hi
  · exact h

/-- Every element of the shuffled list comes from the input list. -/
theorem mem_shuffleGo {α : Type} {x : α} :
    ∀ (n : Nat) (l : List α) (rand : List Nat), x ∈ (shuffleGo l rand n).1 → x ∈ l := by
  intro n
  induction n with
  | zero => intro l rand h; exact h
  | succ n ih =>
    intro l rand h
    simp only [shuffleGo] at h
    exact mem_listSwap _ _ _ (ih _ _ h)

theorem mem_shuffle {α : Type} {x : α} (rand : List Nat) (l : List α)
    (h : x ∈ (shuffle rand l).1) : x ∈ l :=
  mem_shuffleGo _ _ _ h

/-- If the candidate loop produced an inner success, the success came from
trying one of the candidates (at some intermediate state of the random
stream). -/
theorem tryOptions_eq_some (f : Pitch → List Nat → Option (Option (List Pitch) × List Nat)) :
    ∀ (opts : List Pitch) (rand rand' : List Nat) (r : List Pitch),
      tryOptions f opts rand = some (some r, rand') →
      ∃ o, o ∈ opts ∧ ∃ r0, f o r0 = some (some r, rand') := by
  intro opts
  induction opts with
  | nil => intro rand rand' r h; simp [tryOptions] at h
  | cons o rest ih =>
    intro rand rand' r h
    simp only [tryOptions] at h
    cases heq : f o rand with
    | none => rw [heq] at h; simp at h
    | some p =>
      obtain ⟨res, rand1⟩ := p
      cases res with
      | some r2 =>
        rw [heq] at h
        simp only [] at h
        obtain ⟨h1, h2⟩ := by simpa using h
        exact ⟨o, List.mem_cons_self o rest, rand, by rw [heq, h1, h2]⟩
      | none =>
        rw [heq] at h
        obtain ⟨o2, ho2, r0, hc⟩ := ih rand1 rand' r h
        exact ⟨o2, List.mem_cons_of_mem o ho2, r0, hc⟩

/-- If every attempted call yields a non-sentinel answer, so does the loop. -/
theorem tryOptions_isSome (f : Pitch → List Nat → Option (Option (List Pitch) × List Nat))
    (hf : ∀ o r0, (f o r0).isSome = true) :
    ∀ (opts : List Pitch) (rand : List Nat), (tryOptions f opts rand).isSome = true := by
  intro opts
  induction opts with
  | nil => intro rand; rfl
  | cons o rest ih =>
    intro rand
    simp only [tryOptions]
    cases heq : f o rand with
    | none => have hx := hf o rand; rw [heq] at hx; simp at hx
    | some p =>
      obtain ⟨res, rand1⟩ := p
      cases res with
      | some r2 => rfl
      | none => exact ih rand1

/-- Every survivor of the rule pipeline passed the scale-membership filter,
the first stage of the pipeline. -/
theorem mem_applyFilters_scaleTest (notes so_far : List Pitch) (scale : Scale)
    (other_note : Pitch) (opts : List Pitch) (o : Pitch)
    (h : o ∈ applyFilters notes so_far scale other_note opts) :
    scaleTest scale o = true := by
  simp only [applyFilters, scaleFilter, registerFilter, repeatedFilter] at h
  replace h := List.mem_of_mem_filter h
  split at h
  · iterate 8 replace h := List.mem_of_mem_filter h
    exact (List.mem_filter.mp h).2
  · iterate 7 replace h := List.mem_of_mem_filter h
    exact (List.mem_filter.mp h).2

/-- Any inner success of `counterpoint_helper` has exactly the cantus length:
successes are only created at the base case, where the two lengths coincide,
and are propagated unchanged. -/
theorem helper_length (notes : List Pitch) (scale : Scale) (dir : Direction) :
    ∀ (fuel : Nat) (so_far : List Pitch) (rand rand' : List Nat) (r : List Pitch),
      counterpoint_helper fuel notes so_far scale dir rand = some (some r, rand') →
      r.length = notes.length := by
  intro fuel
  induction fuel with
  | zero => intro so_far rand rand' r h; simp [counterpoint_helper] at h
  | succ fuel ih =>
    intro so_far rand rand' r h
    simp only [counterpoint_helper] at h
    split at h
    · rename_i hlen
      obtain ⟨h1, h2⟩ := by simpa using h
      rw [← h1]
      exact hlen
    · cases hget : notes.get? so_far.length with
      | none => simp only [hget] at h; simp at h
      | some other_note =>
        simp only [hget] at h
        obtain ⟨o, ho, r0, hcall⟩ := tryOptions_eq_some _ _ _ _ _ h
        exact ih (so_far ++ [o]) r0 rand' r hcall

/-- With fuel exceeding the number of positions still to fill, the search
never returns the fuel sentinel: the recursion is genuinely well-founded,
decreasing on the number of unfilled positions. -/
theorem helper_isSome (notes : List Pitch) (scale : Scale) (dir : Direction) :
    ∀ (fuel : Nat) (so_far : List Pitch) (rand : List Nat),
      notes.length - so_far.length < fuel →
      (counterpoint_helper fuel notes so_far scale dir rand).isSome = true := by
  intro fuel
  induction fuel with
  | zero => intro so_far rand h; omega
  | succ fuel ih =>
    intro so_far rand h
    simp only [counterpoint_helper]
    split
    · rfl
    · cases hget : notes.get? so_far.length with
      | none => simp [hget]
      | some other_note =>
        have hlt : so_far.length < notes.length := by
          rcases List.get?_eq_some.mp hget with ⟨hl, _⟩
          exact hl
        simp only [hget]
        apply tryOptions_isSome
        intro o r0
        apply ih
        simp only [List.length_append, List.length_cons, List.length_nil]
        omega

/-- Every pitch of an inner success of `counterpoint_helper` passes the
scale-membership test, provided every pitch accumulated so far does: every
appended candidate survived the pipeline, whose first stage is the scale
filter. -/
theorem helper_scale (notes : List Pitch) (scale : Scale) (dir : Direction) :
    ∀ (fuel : Nat) (so_far : List Pitch) (rand rand' : List Nat) (r : List Pitch),
      counterpoint_helper fuel notes so_far scale dir rand = some (some r, rand') →
      (∀ p ∈ so_far, scaleTest scale p = true) →
      ∀ p ∈ r, scaleTest scale p = true := by
  intro fuel
  induction fuel with
  | zero => intro so_far rand rand' r h _; simp [counterpoint_helper] at h
  | succ fuel ih =>
    intro so_far rand rand' r h hsf
    simp only [counterpoint_helper] at h
    split at h
    · obtain ⟨h1, h2⟩ := by simpa using h
      rw [← h1]
      exact hsf
    · cases hget : notes.get? so_far.length with
      | none => simp only [hget] at h; simp at h
      | some other_note =>
        simp only [hget] at h
        obtain ⟨o, ho, r0, hcall⟩ := tryOptions_eq_some _ _ _ _ _ h
        have hos : scaleTest scale o = true :=
          mem_applyFilters_scaleTest _ _ _ _ _ _ (mem_shuffle _ _ ho)
        apply ih (so_far ++ [o]) r0 rand' r hcall
        intro p hp
        rcases List.mem_append.mp hp with hp1 | hp1
        · exact hsf p hp1
        · rw [List.mem_singleton.mp hp1]
          exact hos

/-- Any success of `counterpoint` was produced by `counterpoint_helper`
starting from a scale-member opening pitch. -/
theorem counterpoint_success (notes : List Pitch) (scale : Scale) (dir : Direction)
    (rand : List Nat) (r : List Pitch)
    (h : counterpoint notes scale dir rand = some (some r)) :
    ∃ o rand0 rand1, scaleTest scale o = true ∧
      counterpoint_helper notes.length notes [o] scale dir rand0 = some (some r, rand1) := by
  cases notes with
  | nil => simp [counterpoint] at h
  | cons n0 rest =>
    simp only [counterpoint] at h
    split at h
    · simp at h
    · rename_i res rand2 heq
      have hres : res = some r := by simpa using h
      subst hres
      obtain ⟨o, ho, r0, hcall⟩ := tryOptions_eq_some _ _ _ _ _ heq
      refine ⟨o, r0, rand2, ?_, hcall⟩
      have ho2 : o ∈ List.filter (fun q => scaleTest scale q) (openingCandidates dir n0) :=
        mem_shuffle _ _ ho
      exact (List.mem_filter.mp ho2).2

/-- For a non-empty cantus the top-level search never returns the sentinel. -/
theorem counterpoint_isSome (notes : List Pitch) (scale : Scale) (dir : Direction)
    (rand : List Nat) (hne : notes ≠ []) :
    (counterpoint notes scale dir rand).isSome = true := by
  cases notes with
  | nil => exact absurd rfl hne
  | cons n0 rest =>
    simp only [counterpoint]
    have hf : ∀ (o : Pitch) (r0 : List Nat),
        (counterpoint_helper (n0 :: rest).length (n0 :: rest) [o] scale dir r0).isSome = true := by
      intro o r0
      apply helper_isSome
      simp only [List.length_cons, List.length_singleton]
      omega
    have hall := tryOptions_isSome _ hf
      (shuffle rand (scaleFilter scale (openingCandidates dir n0))).1
      (shuffle rand (scaleFilter scale (openingCandidates dir n0))).2
    split
    · rename_i heq
      rw [heq] at hall
      simp at hall
    · rfl

/-- Claim C9: the register-ceiling filter keeps a candidate exactly when its
absolute semitone distance to the simultaneous cantus note is at most
`12 + 4 = 16` semitones, removing exactly those farther away. -/
theorem c9_register_ceiling_iff (other_note option : Pitch) (options : List Pitch) :
    option ∈ registerFilter other_note options ↔
      option ∈ options ∧
      (option.semitones_from_middle_c - other_note.semitones_from_middle_c).natAbs ≤ 16 := by
  simp [registerFilter, List.mem_filter, Interval.semitones, Nat.not_lt]

/-- Claim C4: every successful result is claimed to open a unison, perfect
fifth or octave away from the cantus on the side fixed by the direction.
Counterexample run: cantus `[F4, D4]`, C-major scale, direction `Above`,
random stream `[0]` (which makes the opening loop try `F4 + perfect fifth`
first).  Because the semitone normalisation collapses 12 to 0, that opening
is `C4`, a perfect fourth *below* the cantus, and the search completes
successfully with `[C4, D4]`: the opening offset is `-5`, not one of the
claimed `0`, `+7`, `+12`. -/
theorem c4_boundary_consonance_violated :
    counterpoint [f4p, d4p] cMajorScale .Above [0] = some (some [c4p, d4p]) ∧
    c4p.semitones_from_middle_c - f4p.semitones_from_middle_c = -5 ∧
    ¬(c4p.semitones_from_middle_c - f4p.semitones_from_middle_c ∈ ([0, 7, 12] : List Int)) := by
  decide

/-- Claim C7: for a non-empty cantus, any successful result of the search has
exactly the cantus length, and in particular is never the empty sequence. -/
theorem c7_success_length (notes : List Pitch) (scale : Scale) (dir : Direction)
    (rand : List Nat) (r : List Pitch) (hne : notes ≠ [])
    (h : counterpoint notes scale dir rand = some (some r)) :
    r.length = notes.length ∧ r ≠ [] := by
  obtain ⟨o, r0, rand1, _, hcall⟩ := counterpoint_success notes scale dir rand r h
  have hlen := helper_length notes scale dir notes.length [o] r0 rand1 r hcall
  refine ⟨hlen, ?_⟩
  intro hr
  subst hr
  exact hne (List.length_eq_zero.mp hlen.symm)

/-- Witness for C7 at a concrete run: cantus `[C4]`, C-major, above, empty
random stream succeeds with `[G4]`. -/
theorem c7_success_length_witness :
    ([g4p] : List Pitch).length = ([c4p] : List Pitch).length ∧ ([g4p] : List Pitch) ≠ [] :=
  c7_success_length [c4p] cMajorScale .Above [] [g4p] (by decide) (by decide)

/-- Claim C8: every pitch of a successful result passes the scale-membership
test, i.e. its pitch-class is `PartialEq`-equal to a member of the list of
notes reached by stepping the scale's interval list from its root. -/
theorem c8_result_in_scale (notes : List Pitch) (scale : Scale) (dir : Direction)
    (rand : List Nat) (r : List Pitch)
    (h : counterpoint notes scale dir rand = some (some r)) :
    ∀ p ∈ r, scaleTest scale p = true := by
  obtain ⟨o, r0, rand1, hsc, hcall⟩ := counterpoint_success notes scale dir rand r h
  apply helper_scale notes scale dir notes.length [o] r0 rand1 r hcall
  intro p hp
  rw [List.mem_singleton.mp hp]
  exact hsc

/-- Witness for C8 at the same concrete run as C7's witness. -/
theorem c8_result_in_scale_witness :
    scaleTest cMajorScale g4p = true :=
  c8_result_in_scale [c4p] cMajorScale .Above [] [g4p] (by decide) g4p (by decide)

/-- Claim C10: for every non-empty cantus, scale, direction and random
stream, the (depth-bounded) search completes without ever consuming its
bound: it returns either the no-solution signal or a complete solution of
the cantus length. -/
theorem c10_search_terminates (notes : List Pitch) (scale : Scale) (dir : Direction)
    (rand : List Nat) (hne : notes ≠ []) :
    ∃ res, counterpoint notes scale dir rand = some res ∧
      (res = none ∨ ∃ r, res = some r ∧ r.length = notes.length) := by
  have h1 := counterpoint_isSome notes scale dir rand hne
  cases heq : counterpoint notes scale dir rand with
  | none => rw [heq] at h1; simp at h1
  | some res =>
    refine ⟨res, rfl, ?_⟩
    cases res with
    | none => exact Or.inl rfl
    | some r =>
      refine Or.inr ⟨r, rfl, ?_⟩
      obtain ⟨o, r0, rand1, _, hcall⟩ := counterpoint_success notes scale dir rand r heq
      exact helper_length notes scale dir notes.length [o] r0 rand1 r hcall

/-- Witness for C10 at a concrete run. -/
theorem c10_search_terminates_witness :
    ∃ res, counterpoint [c4p] cMajorScale .Above [] = some res ∧
      (res = none ∨ ∃ r, res = some r ∧ r.length = ([c4p] : List Pitch).length) :=
  c10_search_terminates [c4p] cMajorScale .Above [] (by decide)

end CP
